import Mathlib

/-!
Verification of the Incremental Completion Reassembly subsystem of presto
(package `internal/ai`, file containing `Client.ProcessContent`,
`Client.MergeContinuation` and friends, plus `pkg/types`).

Go strings are modelled as `List Char`; Go `strings.Split`, `strings.Join`,
`strings.Fields`, `strings.TrimSpace`, `strings.HasPrefix` / `HasSuffix`,
`strings.Count` and `strings.Contains` are given direct list models below.
Go `int` counters that can go negative are modelled as `Int`; lengths and
indices that stay non-negative are `Nat`.
-/

namespace Presto

/-- Go strings, modelled as lists of (unicode) characters. -/
abbrev Str := List Char

/-- Literal helper: a Lean string literal as a `Str`. -/
def gs (s : String) : Str := s.toList

/-- The double-quote character. -/
def dq : Char := Char.ofNat 34

/-- The single-quote character. -/
def sq : Char := Char.ofNat 39

/-- The backtick character. -/
def bt : Char := Char.ofNat 96

/-- The backslash character. -/
def bsl : Char := Char.ofNat 92

/-- Go `unicode.IsSpace` (White_Space property). -/
def goIsSpace (c : Char) : Bool :=
  let n := c.toNat
  n == 9 || n == 10 || n == 11 || n == 12 || n == 13 || n == 32 ||
  n == 0x85 || n == 0xA0 || n == 0x1680 || (0x2000 ≤ n && n ≤ 0x200A) ||
  n == 0x2028 || n == 0x2029 || n == 0x202F || n == 0x205F || n == 0x3000

/-- Go `strings.TrimSpace`: drop leading and trailing whitespace. -/
def trimSpace (s : Str) : Str :=
  ((s.dropWhile goIsSpace).reverse.dropWhile goIsSpace).reverse

/-- Go `strings.Split(s, "\n")`: split around every newline; never empty. -/
def splitNl : Str → List Str
  | [] => [[]]
  | c :: rest =>
    if c = '\n' then [] :: splitNl rest
    else
      match splitNl rest with
      | [] => [[c]]
      | h :: t => (c :: h) :: t

/-- Go `strings.Join(xs, "\n")`. -/
def joinNl (xs : List Str) : Str := List.intercalate ['\n'] xs

/-- Worker for `fieldsGo`; `cur` is the current in-progress word, reversed. -/
def fieldsAux : Str → Str → List Str
  | [], cur => if cur = [] then [] else [cur.reverse]
  | c :: rest, cur =>
    if goIsSpace c then
      if cur = [] then fieldsAux rest []
      else cur.reverse :: fieldsAux rest []
    else fieldsAux rest (c :: cur)

/-- Go `strings.Fields`: split around runs of whitespace, no empty words. -/
def fieldsGo (s : Str) : List Str := fieldsAux s []

/-- Go `strings.ToLower`, modelled on the ASCII range (the inputs the
claims exercise are ASCII). -/
def goToLower (c : Char) : Char :=
  if 'A' ≤ c ∧ c ≤ 'Z' then Char.ofNat (c.toNat + 32) else c

/-- Go `strings.TrimPrefix`. -/
def trimPfx (s pfx : Str) : Str :=
  if pfx.isPrefixOf s then s.drop pfx.length else s

/-- Non-overlapping substring count, fuel-driven; worker for `countSub`. -/
def countSubAux (pat : Str) : Nat → Str → Nat
  | 0, _ => 0
  | _, [] => 0
  | fuel + 1, c :: rest =>
    if pat.isPrefixOf (c :: rest) then
      1 + countSubAux pat fuel ((c :: rest).drop pat.length)
    else countSubAux pat fuel rest

/-- Go `strings.Count(s, pat)` for non-empty `pat`: non-overlapping count. -/
def countSub (s pat : Str) : Nat := countSubAux pat s.length s

/-- Go `strings.Contains(s, sub)`. -/
def containsSub (s sub : Str) : Bool := decide (sub <:+: s)

/-- The three-argument `min` defined at the bottom of the ai client file. -/
def min3 (a b c : Nat) : Nat :=
  if a ≤ b ∧ a ≤ c then a else if b ≤ c then b else c

/-! ### `pkg/types`: string-typed enums used by the ai client -/

/-- `types.Language` is a Go string type. -/
abbrev Language := Str

def LangUnknown : Language := gs "unknown"
def LangGo : Language := gs "go"
def LangJavaScript : Language := gs "javascript"
def LangTypeScript : Language := gs "typescript"
def LangPython : Language := gs "python"
def LangJava : Language := gs "java"
def LangC : Language := gs "c"
def LangCPP : Language := gs "cpp"
def LangHTML : Language := gs "html"
def LangXML : Language := gs "xml"
def LangJSON : Language := gs "json"
def LangMarkdown : Language := gs "markdown"
def LangText : Language := gs "text"

/-- `types.ProcessingMode` is a Go string type. -/
abbrev ProcessingMode := Str

def ModeTransform : ProcessingMode := gs "transform"
def ModeGenerate : ProcessingMode := gs "generate"

/-! ### Overlap Matcher / Fragment Merger (`Client.MergeContinuation` etc.) -/

/-- `Client.linesMatch`: equal length and pairwise whitespace-trimmed
equality. -/
def linesMatch (l1 l2 : List Str) : Bool :=
  decide (l1.length = l2.length) &&
    (l1.zip l2).all fun p => decide (trimSpace p.1 = trimSpace p.2)

/-- The value `tryExactLineOverlap` returns for a successful overlap of
width `overlap`: append the remaining continuation lines, if any. -/
def exactMergeAt (existing : Str) (contLines : List Str) (overlap : Nat) : Str :=
  let remaining := contLines.drop overlap
  if remaining.length > 0 then existing ++ '\n' :: joinNl remaining
  else existing

/-- The `for overlap := 1; overlap <= maxOverlapCheck` loop of
`Client.tryExactLineOverlap`; `fuel` is the number of iterations left. -/
def tryExactFrom (existing : Str) (existingLines contLines : List Str) :
    Nat → Nat → Str
  | _, 0 => []
  | overlap, fuel + 1 =>
    let existingTail := existingLines.drop (existingLines.length - overlap)
    let contHead := contLines.take overlap
    if linesMatch existingTail contHead then exactMergeAt existing contLines overlap
    else tryExactFrom existing existingLines contLines (overlap + 1) fuel

/-- `Client.tryExactLineOverlap`: last 1..5 lines of the buffer against the
first 1..5 lines of the fragment, first (smallest) match wins; `""` (here
`[]`) signals no match. -/
def tryExactLineOverlap (existing continuation : Str) : Str :=
  let existingLines := splitNl existing
  let contLines := splitNl continuation
  let maxOverlapCheck := min3 existingLines.length contLines.length 5
  tryExactFrom existing existingLines contLines 1 maxOverlapCheck

/-- The three "completes" cases of `Client.findCompletionPoint`, for one
(already trimmed, non-empty) continuation line against one (already trimmed,
non-empty) existing line. -/
def completesLine (contLine existingLine : Str) : Bool :=
  (decide (existingLine.length < contLine.length) && existingLine.isPrefixOf contLine) ||
  (decide (3 < existingLine.length) &&
    (existingLine.take (existingLine.length - 1)).isPrefixOf contLine) ||
  (match (fieldsGo existingLine).getLast?, (fieldsGo contLine).head? with
   | some lastExistingWord, some firstContWord =>
     decide (3 ≤ lastExistingWord.length) &&
     decide (lastExistingWord.length < firstContWord.length) &&
     lastExistingWord.isPrefixOf firstContWord
   | _, _ => false)

/-- Worker for `findCompletionPoint`: scan `contHead` with its index. -/
def findCompletionPointAux (existingTail : List Str) : Nat → List Str → Option Nat
  | _, [] => none
  | idx, contLine :: rest =>
    let cl := trimSpace contLine
    if cl = [] then findCompletionPointAux existingTail (idx + 1) rest
    else if existingTail.any (fun el =>
        let el := trimSpace el
        decide (el ≠ []) && completesLine cl el) then
      some idx
    else findCompletionPointAux existingTail (idx + 1) rest

/-- `Client.findCompletionPoint`; Go returns `-1` for "no completion",
modelled as `none`. -/
def findCompletionPoint (existingTail contHead : List Str) : Option Nat :=
  findCompletionPointAux existingTail 0 contHead

/-- The `for linesToRemove := 1; ...` loop of `Client.tryPartialCompletion`. -/
def tryPartialFrom (existingLines contLines : List Str) : Nat → Nat → Str
  | _, 0 => []
  | linesToRemove, fuel + 1 =>
    let existingTail := existingLines.drop (existingLines.length - linesToRemove)
    let contHead := contLines.take (min3 (linesToRemove + 2) contLines.length 20)
    match findCompletionPoint existingTail contHead with
    | some completionPoint =>
      let truncatedExisting :=
        joinNl (existingLines.take (existingLines.length - linesToRemove))
      let remainingContinuation := joinNl (contLines.drop completionPoint)
      if truncatedExisting = [] then remainingContinuation
      else truncatedExisting ++ '\n' :: remainingContinuation
    | none => tryPartialFrom existingLines contLines (linesToRemove + 1) fuel

/-- `Client.tryPartialCompletion`: detect a continuation that completes a
truncated trailing line; `[]` signals no match. -/
def tryPartialCompletion (existing continuation : Str) : Str :=
  let existingLines := splitNl existing
  let contLines := splitNl continuation
  if existingLines.length = 0 ∨ contLines.length = 0 then []
  else
    tryPartialFrom existingLines contLines 1
      (min3 existingLines.length contLines.length 3)

/-- The inner word-matching run of `Client.findWordOverlap`: count matching
words (lower-cased, trimmed) from position 0, stopping at first mismatch. -/
def matchRun : List Str → List Str → Nat
  | [], _ => 0
  | _, [] => 0
  | a :: as, b :: bs =>
    if (trimSpace a).map goToLower = (trimSpace b).map goToLower then
      matchRun as bs + 1
    else 0

/-- `Client.findWordOverlap`: best run of ≥ 3 matching words over all
starting positions `0 ≤ startPos < len contHead - 2`. -/
def findWordOverlap (existingTail contHead : List Str) : Nat :=
  ((List.range (contHead.length - 2)).map
    (fun startPos => matchRun existingTail (contHead.drop startPos))).foldl
    (fun maxOverlap overlap =>
      if 3 ≤ overlap ∧ maxOverlap < overlap then overlap else maxOverlap) 0

/-- The `for wordsToCheck := 3; ...` loop of `Client.tryWordOverlap`. -/
def tryWordFrom (continuation : Str) (existingWords contWords : List Str) :
    Nat → Nat → Str
  | _, 0 => []
  | wordsToCheck, fuel + 1 =>
    let existingTail := existingWords.drop (existingWords.length - wordsToCheck)
    let contHead := contWords.take (min3 (wordsToCheck + 5) contWords.length 20)
    let overlapLen := findWordOverlap existingTail contHead
    if 0 < overlapLen then
      let truncatedWords := existingWords.take (existingWords.length - overlapLen)
      let truncatedExisting := List.intercalate [' '] truncatedWords
      if truncatedExisting = [] then continuation
      else truncatedExisting ++ ' ' :: continuation
    else tryWordFrom continuation existingWords contWords (wordsToCheck + 1) fuel

/-- `Client.tryWordOverlap`: word-level overlap for the last 3..20 words;
`[]` signals no match. -/
def tryWordOverlap (existing continuation : Str) : Str :=
  let existingWords := fieldsGo existing
  let contWords := fieldsGo continuation
  if existingWords.length < 3 ∨ contWords.length < 3 then []
  else
    tryWordFrom continuation existingWords contWords 3
      (min3 existingWords.length contWords.length 20 - 2)

/-- `Client.MergeContinuation`: trim the fragment; empty fragment returns the
buffer unchanged; otherwise try the three overlap strategies in order and
fall back to newline concatenation. -/
def MergeContinuation (existing continuation0 : Str) : Str :=
  let continuation := trimSpace continuation0
  if continuation = [] then existing
  else
    let m1 := tryExactLineOverlap existing continuation
    if m1 ≠ [] then m1
    else
      let m2 := tryPartialCompletion existing continuation
      if m2 ≠ [] then m2
      else
        let m3 := tryWordOverlap existing continuation
        if m3 ≠ [] then m3
        else existing ++ '\n' :: continuation

/-! ### Completeness Oracle (`Client.LooksReasonablyComplete` etc.) -/

/-- Suffix test (Go `strings.HasSuffix`). -/
def isSfx (pat s : Str) : Bool := pat.reverse.isPrefixOf s.reverse

/-- `Client.hasBalancedBraces` loop state machine. Go iterates runes with a
byte-index escape lookback `content[i-1] != '\\'`; `prev` models the
preceding character (identical for ASCII input). The counters are Go `int`s
and may go negative. The `switch r` statement is modelled by the three
counter updates (exactly one of the six bracket characters can match). -/
def hbbAux : List Char → Option Char → Option Char → Int → Int → Int → Bool
  | [], _, _, braceCount, parenCount, bracketCount =>
    decide (braceCount = 0) && decide (parenCount = 0) && decide (bracketCount = 0)
  | r :: rest, prev, inString, braceCount, parenCount, bracketCount =>
    match inString with
    | none =>
      if r = dq ∨ r = sq ∨ r = bt then
        hbbAux rest (some r) (some r) braceCount parenCount bracketCount
      else
        hbbAux rest (some r) none
          (braceCount + (if r = Char.ofNat 123 then 1 else 0)
            - (if r = Char.ofNat 125 then 1 else 0))
          (parenCount + (if r = '(' then 1 else 0) - (if r = ')' then 1 else 0))
          (bracketCount + (if r = '[' then 1 else 0) - (if r = ']' then 1 else 0))
    | some stringChar =>
      if r = stringChar then
        if prev ≠ some bsl then
          hbbAux rest (some r) none braceCount parenCount bracketCount
        else hbbAux rest (some r) (some stringChar) braceCount parenCount bracketCount
      else hbbAux rest (some r) (some stringChar) braceCount parenCount bracketCount

/-- `Client.hasBalancedBraces`. -/
def hasBalancedBraces (content : Str) : Bool :=
  hbbAux content none none 0 0 0

/-- `Client.hasBalancedTags`: coarse angle-bracket count equality. -/
def hasBalancedTags (content : Str) : Bool :=
  decide (content.count '<' = content.count '>')

/-- The `abruptEndings` list of `Client.hasValidPythonStructure`:
":", "\\", ",", "(", "[", "\x7b" (ASCII 58, 92, 44, 40, 91, 123). -/
def pyAbruptEndings : List Str :=
  [[Char.ofNat 58], [bsl], [Char.ofNat 44], [Char.ofNat 40],
   [Char.ofNat 91], [Char.ofNat 123]]

/-- `Client.hasValidPythonStructure`. -/
def hasValidPythonStructure (content : Str) : Bool :=
  let lines := splitNl content
  if lines.length = 0 then false
  else
    let lastLine := trimSpace (lines.getLastD [])
    ! pyAbruptEndings.any (fun ending => isSfx ending lastLine)

/-- The `abruptChars` string of `Client.hasAbruptEnding`. -/
def abruptChars : Str := gs ",(+*/-=&|<"

/-- `Client.hasAbruptEnding` (last character is one of the abrupt set). -/
def hasAbruptEnding (content0 : Str) : Bool :=
  let content := trimSpace content0
  if content.length = 0 then true
  else abruptChars.any (fun c => decide (c = content.getLastD ' '))

/-- The language set routed to `hasBalancedBraces` by
`Client.hasBalancedStructure` (the "brace-delimited" content classes). -/
def isBraceLang (language : Language) : Bool :=
  decide (language = LangJavaScript) || decide (language = LangTypeScript) ||
  decide (language = LangJSON) || decide (language = LangGo) ||
  decide (language = LangJava) || decide (language = LangC) ||
  decide (language = LangCPP)

/-- `Client.hasBalancedStructure`. -/
def hasBalancedStructure (content : Str) (language : Language) : Bool :=
  if isBraceLang language then hasBalancedBraces content
  else if language = LangHTML ∨ language = LangXML then hasBalancedTags content
  else if language = LangPython then hasValidPythonStructure content
  else ! hasAbruptEnding content

/-- `Client.LooksReasonablyComplete`: complete if at least as long as the
original, or at least 90% (Go integer arithmetic `len(original)*9/10`) and
structurally balanced for the language. -/
def LooksReasonablyComplete (response original : Str) (language : Language) : Bool :=
  if original.length ≤ response.length then true
  else if original.length * 9 / 10 ≤ response.length then
    hasBalancedStructure response language
  else false

/-- `Client.wasResponseComplete`: the finish reasons treated as length-limit
truncation signals. -/
def incompleteReasons : List Str :=
  [gs "length", gs "max_tokens", gs "max_output_tokens"]

/-- `Client.wasResponseComplete`. -/
def wasResponseComplete (finishReason : Str) : Bool :=
  ! incompleteReasons.any (fun reason => decide (reason = finishReason))

/-! ### Markdown post-processing (`Client.postProcessContent` chain) -/

/-- The markdown code fence: three backticks. -/
def fence : Str := [bt, bt, bt]

/-- `Client.hasInnerCodeBlocks`: at least two fences inside. -/
def hasInnerCodeBlocks (content : Str) : Bool :=
  decide (2 ≤ countSub content fence)

/-- The `languageAliases` table of `Client.isCompatibleLanguage`. -/
def languageAliases : List (Str × List Str) :=
  [(gs "go", [gs "go", gs "golang"]),
   (gs "javascript", [gs "js", gs "javascript", gs "jsx"]),
   (gs "typescript", [gs "ts", gs "typescript", gs "tsx"]),
   (gs "python", [gs "py", gs "python", gs "python3"]),
   (gs "rust", [gs "rs", gs "rust"]),
   (gs "java", [gs "java"]),
   (gs "cpp", [gs "cpp", gs "c++", gs "cxx"]),
   (gs "c", [gs "c"]),
   (gs "csharp", [gs "cs", gs "csharp", gs "c#"]),
   (gs "php", [gs "php"]),
   (gs "ruby", [gs "rb", gs "ruby"]),
   (gs "yaml", [gs "yml", gs "yaml"]),
   (gs "json", [gs "json"]),
   (gs "xml", [gs "xml"]),
   (gs "html", [gs "html", gs "htm"]),
   (gs "css", [gs "css"]),
   (gs "sql", [gs "sql"]),
   (gs "shell", [gs "sh", gs "bash", gs "shell", gs "zsh"])]

/-- `Client.isCompatibleLanguage`. -/
def isCompatibleLanguage (declared0 : Str) (fileLanguage : Language) : Bool :=
  let declared := declared0.map goToLower
  match languageAliases.find? (fun p => decide (p.1 = fileLanguage)) with
  | some p =>
    if p.2.any (fun al => decide (declared = al)) then true
    else decide (declared = fileLanguage)
  | none => decide (declared = fileLanguage)

/-- `Client.looksLikeWrapper`; the line-count difference is a Go `int`. -/
def looksLikeWrapper (fullContent innerContent : Str) (language : Language) : Bool :=
  let fullLines : Int := (splitNl fullContent).length
  let innerLines : Int := (splitNl innerContent).length
  if fullLines - innerLines ≤ 2 then true
  else if language = LangGo then
    (gs "package ").isPrefixOf (trimSpace innerContent) ||
    containsSub innerContent (gs "func ") ||
    containsSub innerContent (gs "import ")
  else if language = LangJavaScript ∨ language = LangTypeScript then
    containsSub innerContent (gs "function ") ||
    containsSub innerContent (gs "const ") ||
    containsSub innerContent (gs "import ") ||
    containsSub innerContent (gs "export ")
  else if language = LangPython then
    containsSub innerContent (gs "def ") ||
    containsSub innerContent (gs "class ") ||
    containsSub innerContent (gs "import ")
  else decide (fullLines - innerLines ≤ 2)

/-- `Client.removeOuterCodeBlock`. -/
def removeOuterCodeBlock (content0 : Str) (language : Language) : Str :=
  let content := trimSpace content0
  if content = [] then content
  else if ¬ (fence.isPrefixOf content = true ∧ isSfx fence content = true) then content
  else
    let lines := splitNl content
    if lines.length < 3 then content
    else
      let firstLine := trimSpace (lines.headD [])
      let lastLine := trimSpace (lines.getLastD [])
      if ¬ fence.isPrefixOf firstLine then content
      else if lastLine ≠ fence then content
      else
        let declaredLang := trimSpace (trimPfx firstLine fence)
        if declaredLang ≠ [] ∧ ¬ isCompatibleLanguage declaredLang language then content
        else
          let innerContent := joinNl ((lines.drop 1).take (lines.length - 2))
          if hasInnerCodeBlocks innerContent then
            if looksLikeWrapper content innerContent language then innerContent
            else content
          else innerContent

/-- `Client.postProcessContent`. -/
def postProcessContent (content : Str) (language : Language) : Str :=
  if language = LangMarkdown then content
  else removeOuterCodeBlock content language

/-! ### Backend result types (`OpenAIResponse`, `AnthropicResponse`) -/

structure OpenAIMessage where
  role : Str
  content : Str

structure OpenAIChoice where
  message : OpenAIMessage
  finishReason : Str

structure OpenAIUsage where
  totalTokens : Nat

structure OpenAIResponse where
  choices : List OpenAIChoice
  usage : OpenAIUsage

/-- `OpenAIResponse.GetContent`. -/
def OpenAIResponse.GetContent (r : OpenAIResponse) : Str :=
  match r.choices with
  | c :: _ => c.message.content
  | [] => []

/-- `OpenAIResponse.GetTokensUsed`. -/
def OpenAIResponse.GetTokensUsed (r : OpenAIResponse) : Nat :=
  r.usage.totalTokens

/-- `OpenAIResponse.GetFinishReason`: first choice's finish reason, or "". -/
def OpenAIResponse.GetFinishReason (r : OpenAIResponse) : Str :=
  match r.choices with
  | c :: _ => c.finishReason
  | [] => []

/-- `OpenAIResponse.IsComplete`. -/
def OpenAIResponse.IsComplete (r : OpenAIResponse) : Bool :=
  let reason := r.GetFinishReason
  decide (reason = gs "stop") || decide (reason = gs "end_turn") ||
    decide (reason = [])

structure AnthropicContent where
  type : Str
  text : Str

structure AnthropicUsage where
  inputTokens : Nat
  outputTokens : Nat

structure AnthropicResponse where
  content : List AnthropicContent
  usage : AnthropicUsage
  stopReason : Str

/-- `AnthropicResponse.GetContent`. -/
def AnthropicResponse.GetContent (r : AnthropicResponse) : Str :=
  match r.content with
  | c :: _ => if c.type = gs "text" then c.text else []
  | [] => []

/-- `AnthropicResponse.GetTokensUsed`. -/
def AnthropicResponse.GetTokensUsed (r : AnthropicResponse) : Nat :=
  r.usage.inputTokens + r.usage.outputTokens

/-- `AnthropicResponse.GetFinishReason`. -/
def AnthropicResponse.GetFinishReason (r : AnthropicResponse) : Str :=
  r.stopReason

/-- `AnthropicResponse.IsComplete`. -/
def AnthropicResponse.IsComplete (r : AnthropicResponse) : Bool :=
  let reason := r.GetFinishReason
  decide (reason = gs "end_turn") || decide (reason = gs "stop_sequence") ||
    decide (reason = [])

/-! ### Completion Driver (`Client.ProcessContent`)

The backend is abstracted as a round-indexed behaviour
`backend : Nat → Except E APIResp`: the loop's prompt construction
(`buildPrompt` / `BuildContinuationPrompt`) only feeds the backend, whose
behaviour the theorems quantify over, so prompts are elided. An `APIResp`
carries the values of the four `APIResponse` interface methods. The driver
is instrumented to also return the number of backend calls performed and
the accumulated buffer after each successful round (its trace). -/

/-- The `APIResponse` interface values one backend round produces. -/
structure APIResp where
  content : Str
  tokensUsed : Nat
  finishReason : Str
  isComplete : Bool

/-- `types.AIResponse` as constructed by `Client.ProcessContent`. -/
structure AIResponse where
  content : Str
  tokensUsed : Nat
  model : Str
  finishReason : Str
  truncated : Bool

/-- `types.AIRequest` (the fields `ProcessContent` reads). -/
structure AIRequest where
  prompt : Str
  content : Str
  language : Language
  maxTokens : Nat
  mode : ProcessingMode

/-- The `MAX_CONTINUATIONS` constant of `Client.ProcessContent`. -/
def MAX_CONTINUATIONS : Nat := 5

/-- The final `types.AIResponse` built after the loop. -/
def mkFinal (cfgModel acc : Str) (tokens : Nat) (lastReason : Str) : AIResponse :=
  { content := acc, tokensUsed := tokens, model := cfgModel,
    finishReason := lastReason, truncated := ! wasResponseComplete lastReason }

/-- One round's new accumulated buffer: post-process the fragment in
transform mode, then seed (round 0) or merge (later rounds). -/
def stepAcc (req : AIRequest) (attempt : Nat) (acc : Str) (resp : APIResp) : Str :=
  let content :=
    if req.mode = ModeTransform then postProcessContent resp.content req.language
    else resp.content
  if attempt = 0 then content else MergeContinuation acc content

/-- The `for attempt := 0; attempt < MAX_CONTINUATIONS; attempt++` loop of
`Client.ProcessContent`. `fuel` is the number of iterations left
(`MAX_CONTINUATIONS - attempt`); returns (result, rounds performed so far,
trace of accumulated buffers). The source's three break checks
(`apiResp.IsComplete()`, `req.Mode == types.ModeGenerate`,
`attempt > 0 && c.LooksReasonablyComplete(...)`) all exit the loop with the
same state, so they are combined into one disjunction, in source order. -/
def processFrom {E : Type} (backend : Nat → Except E APIResp) (cfgModel : Str)
    (req : AIRequest) :
    Nat → Nat → Str → Nat → Str → List Str →
      Except E AIResponse × Nat × List Str
  | attempt, 0, acc, tokens, lastReason, trace =>
    (Except.ok (mkFinal cfgModel acc tokens lastReason), attempt, trace)
  | attempt, fuel + 1, acc, tokens, _lastReason, trace =>
    match backend attempt with
    | Except.error e => (Except.error e, attempt + 1, trace)
    | Except.ok resp =>
      if resp.isComplete ∨ req.mode = ModeGenerate ∨
          (0 < attempt ∧
            LooksReasonablyComplete (stepAcc req attempt acc resp) req.content req.language = true) then
        (Except.ok (mkFinal cfgModel (stepAcc req attempt acc resp)
            (tokens + resp.tokensUsed) resp.finishReason),
          attempt + 1, trace ++ [stepAcc req attempt acc resp])
      else
        processFrom backend cfgModel req (attempt + 1) fuel (stepAcc req attempt acc resp)
          (tokens + resp.tokensUsed) resp.finishReason (trace ++ [stepAcc req attempt acc resp])

/-- `Client.ProcessContent` (result component). -/
def ProcessContent {E : Type} (backend : Nat → Except E APIResp)
    (cfgModel : Str) (req : AIRequest) : Except E AIResponse :=
  (processFrom backend cfgModel req 0 MAX_CONTINUATIONS [] 0 [] []).1

/-- Number of backend request rounds `Client.ProcessContent` performs. -/
def processRounds {E : Type} (backend : Nat → Except E APIResp)
    (cfgModel : Str) (req : AIRequest) : Nat :=
  (processFrom backend cfgModel req 0 MAX_CONTINUATIONS [] 0 [] []).2.1

/-- Trace of accumulated buffers after each successful round. -/
def processTrace {E : Type} (backend : Nat → Except E APIResp)
    (cfgModel : Str) (req : AIRequest) : List Str :=
  (processFrom backend cfgModel req 0 MAX_CONTINUATIONS [] 0 [] []).2.2

/-! ### Concrete example inputs used by the claim theorems -/

/-- The spec's partial-completion buffer: "function foo() \x7b\n  console.log('Hel". -/
def exC3buffer : Str := gs "function foo() \x7b\n  console.log(" ++ sq :: gs "Hel"

/-- The spec's partial-completion fragment: "console.log('Hello');\n\x7d". -/
def exC3frag : Str := (gs "console.log(" ++ sq :: gs "Hello") ++ sq :: gs ");\n\x7d"

/-- The output the spec claims for the partial-completion example
(indentation of the completed line preserved). -/
def exC3claimed : Str :=
  (gs "function foo() \x7b\n  console.log(" ++ sq :: gs "Hello") ++ sq :: gs ");\n\x7d"

/-- The output the code actually produces for the partial-completion example
(the fragment's unindented line replaces the truncated one). -/
def exC3actual : Str :=
  (gs "function foo() \x7b\nconsole.log(" ++ sq :: gs "Hello") ++ sq :: gs ");\n\x7d"

/-- A backend result that always reports the length-limit finish signal. -/
def lenResp : APIResp :=
  { content := gs "a", tokensUsed := 1, finishReason := gs "length", isComplete := false }

/-- A backend whose every round reports length-limit. -/
def lenBackend : Nat → Except Unit APIResp := fun _ => Except.ok lenResp

/-- A backend that succeeds (length-limited) on round 0 and fails on every
later round. -/
def errBackend : Nat → Except Unit APIResp := fun n =>
  if n = 0 then Except.ok lenResp else Except.error ()

/-- A transform request whose original content is empty. -/
def reqEmpty : AIRequest :=
  { prompt := [], content := [], language := LangText, maxTokens := 0, mode := ModeTransform }

/-- A transform request whose original content is 10 characters long. -/
def reqTen : AIRequest :=
  { prompt := [], content := gs "0123456789", language := LangText,
    maxTokens := 0, mode := ModeTransform }

/-! ### Basic lemmas about the string model -/

theorem splitNl_ne_nil (l : Str) : splitNl l ≠ [] := by
  cases l with
  | nil => simp [splitNl]
  | cons c rest =>
    simp only [splitNl]
    by_cases hc : c = '\n'
    · simp [hc]
    · simp only [if_neg hc]
      cases h : splitNl rest <;> simp

theorem splitNl_cons_of_ne (c : Char) (rest : Str) (h : ¬ c = '\n') :
    ∃ t ls, splitNl (c :: rest) = (c :: t) :: ls := by
  simp only [splitNl, if_neg h]
  cases hs : splitNl rest with
  | nil => exact ⟨[], [], rfl⟩
  | cons hd tl => exact ⟨hd, tl, rfl⟩

theorem dropWhile_head_false (p : Char → Bool) :
    ∀ (l : Str) (c : Char) (t : Str), l.dropWhile p = c :: t → p c = false := by
  intro l
  induction l with
  | nil => intro c t h; simp [List.dropWhile] at h
  | cons a l ih =>
    intro c t h
    by_cases hp : p a
    · rw [List.dropWhile_cons_of_pos hp] at h
      exact ih c t h
    · rw [List.dropWhile_cons_of_neg hp] at h
      cases h
      simpa using hp

theorem trimSpace_rdrop (l : Str) :
    trimSpace l = List.rdropWhile goIsSpace (l.dropWhile goIsSpace) := rfl

theorem trimSpace_head_not (l : Str) (h : trimSpace l ≠ []) :
    ∃ c t, trimSpace l = c :: t ∧ goIsSpace c = false := by
  obtain ⟨t2, ht2⟩ := List.rdropWhile_prefix goIsSpace (l.dropWhile goIsSpace)
  rw [trimSpace_rdrop] at h ⊢
  cases hv : List.rdropWhile goIsSpace (l.dropWhile goIsSpace) with
  | nil => exact absurd hv h
  | cons c t =>
    refine ⟨c, t, rfl, ?_⟩
    rw [hv] at ht2
    exact dropWhile_head_false goIsSpace l c (t ++ t2) (by simpa using ht2.symm)

theorem trimSpace_cons_ne_nil (c : Char) (t : Str) (h : goIsSpace c = false) :
    trimSpace (c :: t) ≠ [] := by
  have h1 : (c :: t).dropWhile goIsSpace = c :: t :=
    List.dropWhile_cons_of_neg (by simp [h])
  rw [trimSpace_rdrop, h1]
  intro hn
  rw [List.rdropWhile_eq_nil_iff] at hn
  have := hn c (by simp)
  simp [h] at this

theorem linesMatch_single_false (x y : Str) (hne : trimSpace x ≠ trimSpace y) :
    linesMatch [x] [y] = false := by
  simp [linesMatch, hne]

/-! ### Unfolding lemmas for the merger pipeline -/

theorem tryExactLineOverlap_eq (existing c : Str) :
    tryExactLineOverlap existing c =
      tryExactFrom existing (splitNl existing) (splitNl c) 1
        (min3 (splitNl existing).length (splitNl c).length 5) := rfl

theorem tryPartialCompletion_eq (existing c : Str) :
    tryPartialCompletion existing c =
      if (splitNl existing).length = 0 ∨ (splitNl c).length = 0 then []
      else
        tryPartialFrom (splitNl existing) (splitNl c) 1
          (min3 (splitNl existing).length (splitNl c).length 3) := rfl

theorem tryWordOverlap_eq (existing c : Str) :
    tryWordOverlap existing c =
      if (fieldsGo existing).length < 3 ∨ (fieldsGo c).length < 3 then []
      else
        tryWordFrom c (fieldsGo existing) (fieldsGo c) 3
          (min3 (fieldsGo existing).length (fieldsGo c).length 20 - 2) := rfl

theorem mergeContinuation_eq (existing c : Str) :
    MergeContinuation existing c =
      if trimSpace c = [] then existing
      else if tryExactLineOverlap existing (trimSpace c) ≠ [] then
        tryExactLineOverlap existing (trimSpace c)
      else if tryPartialCompletion existing (trimSpace c) ≠ [] then
        tryPartialCompletion existing (trimSpace c)
      else if tryWordOverlap existing (trimSpace c) ≠ [] then
        tryWordOverlap existing (trimSpace c)
      else existing ++ '\n' :: trimSpace c := rfl

/-- Any successful result of the exact-line-overlap loop is the merge at
some overlap width. -/
theorem tryExactFrom_shape (existing : Str) (el cl : List Str) :
    ∀ fuel ov, tryExactFrom existing el cl ov fuel = [] ∨
      ∃ k, tryExactFrom existing el cl ov fuel = exactMergeAt existing cl k := by
  intro fuel
  induction fuel with
  | zero => intro ov; left; rfl
  | succ f ih =>
    intro ov
    simp only [tryExactFrom]
    by_cases hm : linesMatch (el.drop (el.length - ov)) (cl.take ov) = true
    · right; exact ⟨ov, by rw [if_pos hm]⟩
    · rw [if_neg hm]; exact ih (ov + 1)

theorem exactMergeAt_len (existing : Str) (cl : List Str) (k : Nat) :
    existing.length ≤ (exactMergeAt existing cl k).length := by
  simp only [exactMergeAt]
  split
  · rw [List.length_append]; omega
  · exact Nat.le_refl _

/-- The exact-line-overlap loop returns the merge at the first (smallest)
matching width. -/
theorem tryExactFrom_least (existing : Str) (el cl : List Str) (k0 : Nat)
    (hk : linesMatch (el.drop (el.length - k0)) (cl.take k0) = true) :
    ∀ fuel ov, ov ≤ k0 → k0 < ov + fuel →
      (∀ j, ov ≤ j → j < k0 →
        linesMatch (el.drop (el.length - j)) (cl.take j) = false) →
      tryExactFrom existing el cl ov fuel = exactMergeAt existing cl k0 := by
  intro fuel
  induction fuel with
  | zero => intro ov h1 h2 _; omega
  | succ f ih =>
    intro ov h1 h2 hless
    simp only [tryExactFrom]
    by_cases hov : ov = k0
    · subst hov; rw [if_pos hk]
    · have hno : linesMatch (el.drop (el.length - ov)) (cl.take ov) = false :=
        hless ov (Nat.le_refl ov) (by omega)
      rw [if_neg (by simp [hno])]
      exact ih (ov + 1) (by omega) (by omega) (fun j hj1 hj2 => hless j (by omega) hj2)

theorem findCompletionPointAux_empty_tail :
    ∀ (ch : List Str) (idx : Nat), findCompletionPointAux [([] : Str)] idx ch = none := by
  intro ch
  induction ch with
  | nil => intro idx; rfl
  | cons contLine rest ih =>
    intro idx
    simp only [findCompletionPointAux]
    by_cases hcl : trimSpace contLine = []
    · rw [if_pos hcl]; exact ih _
    · rw [if_neg hcl]
      have hany : ([([] : Str)].any fun el =>
          decide (trimSpace el ≠ []) && completesLine (trimSpace contLine) (trimSpace el)) = false := by
        simp only [List.any_cons, List.any_nil, Bool.or_false]
        have hdec : decide (trimSpace ([] : Str) ≠ []) = false := by decide
        rw [hdec, Bool.false_and]
      rw [if_neg (by rw [hany]; exact Bool.false_ne_true)]
      exact ih _

/-! ### Claim theorems for the Fragment Merger -/

/-- Claim C2, counterexample: the partial-completion strategy can shrink the
buffer. merge("foo\nabcde", "abcd") = "foo\nabcd", one character shorter
than the accumulated text; the claimed monotone non-decrease is false. -/
theorem mergeContinuation_len_cx :
    MergeContinuation (gs "foo\nabcde") (gs "abcd") = gs "foo\nabcd" ∧
    (MergeContinuation (gs "foo\nabcde") (gs "abcd")).length <
      (gs "foo\nabcde").length := by decide

/-- Claim C2, amended: merging never reduces the buffer length when the
merge resolves via the empty-fragment guard, the exact-line-overlap
strategy, or the concatenation fallback — that is, whenever the
partial-completion and word-overlap strategies do not fire. (Those two
strategies rewrite the buffer's truncated suffix and may shorten it, as the
counterexample shows.) -/
theorem mergeContinuation_len_mono (existing c : Str)
    (hp : tryPartialCompletion existing (trimSpace c) = [])
    (hw : tryWordOverlap existing (trimSpace c) = []) :
    existing.length ≤ (MergeContinuation existing c).length := by
  rw [mergeContinuation_eq]
  by_cases h0 : trimSpace c = []
  · rw [if_pos h0]
  · rw [if_neg h0]
    by_cases h1 : tryExactLineOverlap existing (trimSpace c) ≠ []
    · rw [if_pos h1]
      rcases tryExactFrom_shape existing (splitNl existing) (splitNl (trimSpace c))
          (min3 (splitNl existing).length (splitNl (trimSpace c)).length 5) 1 with hm | ⟨k, hm⟩
      · rw [tryExactLineOverlap_eq] at h1
        exact absurd hm h1
      · rw [tryExactLineOverlap_eq, hm]
        exact exactMergeAt_len existing (splitNl (trimSpace c)) k
    · rw [if_neg h1, if_neg (by simp [hp]), if_neg (by simp [hw]), List.length_append]
      omega

/-- Claim C2, witness for the amended statement at a no-overlap input. -/
theorem mergeContinuation_len_mono_witness :
    tryPartialCompletion (gs "end.") (trimSpace (gs "Unrelated start.")) = [] ∧
    tryWordOverlap (gs "end.") (trimSpace (gs "Unrelated start.")) = [] ∧
    (gs "end.").length ≤ (MergeContinuation (gs "end.") (gs "Unrelated start.")).length :=
  ⟨by decide, by decide, mergeContinuation_len_mono _ _ (by decide) (by decide)⟩

/-- Claim C3, counterexample: on the spec's partial-completion example the
merge does NOT return the claimed string — the replacement line comes from
the fragment, so the original two-space indentation is lost. -/
theorem mergeContinuation_partial_cx :
    MergeContinuation exC3buffer exC3frag ≠ exC3claimed := by decide

/-- Claim C3, amended: merge("function foo() \x7b\n  console.log('Hel",
"console.log('Hello');\n\x7d") returns
"function foo() \x7b\nconsole.log('Hello');\n\x7d": the truncated buffer
line is dropped and replaced by the fragment starting at the matching line
(the fragment's own, unindented, spelling of that line), preserving the
rest of the artifact. -/
theorem mergeContinuation_partial_repair :
    MergeContinuation exC3buffer exC3frag = exC3actual := by decide

/-- Claim C4, counterexample: with buffer "B\nB" and fragment "B\nB\nC" the
overlap widths 1 and 2 both match, but the strategy returns the width-1
merge "B\nB\nB\nC" (duplicating a line), not the maximal width-2 merge
"B\nB\nC": the smallest matching width wins, refuting "longest match wins". -/
theorem tryExact_longest_cx :
    linesMatch ((splitNl (gs "B\nB")).drop ((splitNl (gs "B\nB")).length - 2))
      ((splitNl (gs "B\nB\nC")).take 2) = true ∧
    linesMatch ((splitNl (gs "B\nB")).drop ((splitNl (gs "B\nB")).length - 1))
      ((splitNl (gs "B\nB\nC")).take 1) = true ∧
    tryExactLineOverlap (gs "B\nB") (gs "B\nB\nC") = gs "B\nB\nB\nC" ∧
    tryExactLineOverlap (gs "B\nB") (gs "B\nB\nC") =
      exactMergeAt (gs "B\nB") (splitNl (gs "B\nB\nC")) 1 ∧
    exactMergeAt (gs "B\nB") (splitNl (gs "B\nB\nC")) 2 = gs "B\nB\nC" ∧
    tryExactLineOverlap (gs "B\nB") (gs "B\nB\nC") ≠
      exactMergeAt (gs "B\nB") (splitNl (gs "B\nB\nC")) 2 := by decide

/-- Claim C4, amended: the exact-line-overlap strategy recognizes the
SMALLEST k in 1..5 such that the last k whitespace-trimmed lines of the
buffer equal the first k whitespace-trimmed lines of the fragment: if k0 is
matching and no smaller width matches, the strategy returns the merge at
k0, regardless of any larger matching width. -/
theorem tryExact_first_match (existing c : Str) (k0 : Nat) (hk1 : 1 ≤ k0)
    (hk2 : k0 ≤ min3 (splitNl existing).length (splitNl c).length 5)
    (hmatch : linesMatch ((splitNl existing).drop ((splitNl existing).length - k0))
      ((splitNl c).take k0) = true)
    (hleast : ∀ j < k0, 1 ≤ j →
      linesMatch ((splitNl existing).drop ((splitNl existing).length - j))
        ((splitNl c).take j) = false) :
    tryExactLineOverlap existing c = exactMergeAt existing (splitNl c) k0 := by
  rw [tryExactLineOverlap_eq]
  exact tryExactFrom_least existing (splitNl existing) (splitNl c) k0 hmatch
    (min3 (splitNl existing).length (splitNl c).length 5) 1 hk1 (by omega)
    (fun j hj1 hj2 => hleast j hj2 hj1)

/-- Claim C4, witness for the amended statement: the width-1 match of the
"B\nB" / "B\nB\nC" example is returned. -/
theorem tryExact_first_match_witness :
    tryExactLineOverlap (gs "B\nB") (gs "B\nB\nC") =
      exactMergeAt (gs "B\nB") (splitNl (gs "B\nB\nC")) 1 :=
  tryExact_first_match (gs "B\nB") (gs "B\nB\nC") 1 (by decide) (by decide)
    (by decide) (by decide)

/-- Claim C5, counterexample: merge("the quick brown", "quick brown fox
jumps") is NOT "the quick brown fox jumps" — the word strategy only detects
runs that start at the first word of the tail it examines (and the smallest
tail it examines has 3 words, so the 2-word true overlap is never seen),
hence the merge falls back to newline concatenation. -/
theorem mergeContinuation_word_cx :
    MergeContinuation (gs "the quick brown") (gs "quick brown fox jumps") ≠
      gs "the quick brown fox jumps" := by decide

/-- Claim C5, amended: merge("the quick brown", "quick brown fox jumps")
returns "the quick brown\nquick brown fox jumps" (no overlap is detected,
so the concatenation fallback applies); the word-level strategy does fire
when the whole examined 3-word tail reappears in the fragment head, e.g.
merge("x the quick brown", "the quick brown fox jumps") =
"x the quick brown fox jumps", with the overlapping words only once. -/
theorem mergeContinuation_word_fallback :
    MergeContinuation (gs "the quick brown") (gs "quick brown fox jumps") =
      gs "the quick brown\nquick brown fox jumps" ∧
    MergeContinuation (gs "x the quick brown") (gs "the quick brown fox jumps") =
      gs "x the quick brown fox jumps" := by decide

/-- Claim C6, counterexample: the fragment is whitespace-trimmed before
merging, so for the fragment " b " (non-empty trimmed text, no strategy
matches) the output is "a\nb", not accumulated + "\n" + fragment = "a\n b ". -/
theorem mergeContinuation_concat_cx :
    trimSpace (gs " b ") ≠ [] ∧
    tryExactLineOverlap (gs "a") (trimSpace (gs " b ")) = [] ∧
    tryPartialCompletion (gs "a") (trimSpace (gs " b ")) = [] ∧
    tryWordOverlap (gs "a") (trimSpace (gs " b ")) = [] ∧
    MergeContinuation (gs "a") (gs " b ") ≠ gs "a" ++ '\n' :: gs " b " := by decide

/-- Claim C6, amended: for every accumulated text and every fragment with
non-empty trimmed text, if none of the three overlap strategies (applied,
as the code applies them, to the trimmed fragment) finds a match, then
merge(accumulated, fragment) = accumulated + "\n" + trim(fragment); for
already-trimmed fragments this is accumulated + "\n" + fragment.
(Determinism for identical inputs holds by construction: the merger is a
pure function.) -/
theorem mergeContinuation_concat (a f : Str) (h0 : trimSpace f ≠ [])
    (h1 : tryExactLineOverlap a (trimSpace f) = [])
    (h2 : tryPartialCompletion a (trimSpace f) = [])
    (h3 : tryWordOverlap a (trimSpace f) = []) :
    MergeContinuation a f = a ++ '\n' :: trimSpace f := by
  rw [mergeContinuation_eq, if_neg h0, if_neg (by simp [h1]), if_neg (by simp [h2]),
    if_neg (by simp [h3])]

/-- Claim C6, witness: the spec's no-overlap example
merge("end.", "Unrelated start.") = "end.\nUnrelated start.". -/
theorem mergeContinuation_concat_witness :
    MergeContinuation (gs "end.") (gs "Unrelated start.") =
      gs "end." ++ '\n' :: trimSpace (gs "Unrelated start.") ∧
    gs "end." ++ '\n' :: trimSpace (gs "Unrelated start.") =
      gs "end.\nUnrelated start." :=
  ⟨mergeContinuation_concat _ _ (by decide) (by decide) (by decide) (by decide),
    by decide⟩

/-- Claim C10: with an empty accumulated buffer, no overlap strategy can
match (the buffer's only line trims to empty, its word list is empty), so
merge("", f) = "\n" + trim(f) for every fragment with non-empty trimmed
text — in particular merge("", f) ≠ trim(f): the empty string is not a left
identity of the merger. -/
theorem mergeContinuation_empty_left (f : Str) (h : trimSpace f ≠ []) :
    MergeContinuation [] f = '\n' :: trimSpace f ∧
    MergeContinuation [] f ≠ trimSpace f := by
  obtain ⟨c, t, hct, hcs⟩ := trimSpace_head_not f h
  have hcn : ¬ c = '\n' := by
    intro hc
    subst hc
    exact absurd hcs (by decide)
  obtain ⟨t2, ls, hsplit⟩ := splitNl_cons_of_ne c t hcn
  have hline : trimSpace (c :: t2) ≠ [] := trimSpace_cons_ne_nil c t2 hcs
  have hnil0 : splitNl ([] : Str) = [[]] := rfl
  have hlm : linesMatch [([] : Str)] [c :: t2] = false :=
    linesMatch_single_false [] (c :: t2) (fun hcontra => hline hcontra.symm)
  -- the exact-line strategy cannot match the empty buffer
  have hx : tryExactLineOverlap [] (trimSpace f) = [] := by
    rw [tryExactLineOverlap_eq, hct, hsplit, hnil0]
    have hcond5 : ([([] : Str)]).length ≤ (((c :: t2) :: ls)).length ∧
        ([([] : Str)]).length ≤ 5 := by
      constructor <;> simp
    have hmin : min3 ([([] : Str)]).length (((c :: t2) :: ls)).length 5 = 1 := by
      rw [min3, if_pos hcond5]
      rfl
    rw [hmin]
    simp only [tryExactFrom]
    rw [if_neg (by simp [hlm])]
  -- the partial-completion strategy cannot match the empty buffer
  have hpar : tryPartialCompletion [] (trimSpace f) = [] := by
    rw [tryPartialCompletion_eq, hct, hsplit, hnil0]
    rw [if_neg (by simp)]
    have hcond3 : ([([] : Str)]).length ≤ (((c :: t2) :: ls)).length ∧
        ([([] : Str)]).length ≤ 3 := by
      constructor <;> simp
    have hmin : min3 ([([] : Str)]).length (((c :: t2) :: ls)).length 3 = 1 := by
      rw [min3, if_pos hcond3]
      rfl
    rw [hmin]
    simp only [tryPartialFrom, findCompletionPoint]
    rw [List.length_singleton, Nat.sub_self, List.drop_zero,
      findCompletionPointAux_empty_tail]
  -- the word strategy cannot match the empty buffer
  have hw : tryWordOverlap [] (trimSpace f) = [] := by
    rw [tryWordOverlap_eq, if_pos]
    left
    decide
  have heq : MergeContinuation [] f = '\n' :: trimSpace f := by
    rw [mergeContinuation_eq, if_neg h, if_neg (by simp [hx]), if_neg (by simp [hpar]),
      if_neg (by simp [hw])]
    rfl
  refine ⟨heq, ?_⟩
  rw [heq]
  intro hcontra
  have hlen := congrArg List.length hcontra
  simp at hlen

/-- Claim C10, witness at the concrete fragment "abc". -/
theorem mergeContinuation_empty_left_witness :
    MergeContinuation [] (gs "abc") = '\n' :: trimSpace (gs "abc") ∧
    MergeContinuation [] (gs "abc") ≠ trimSpace (gs "abc") :=
  mergeContinuation_empty_left (gs "abc") (by decide)

/-! ### Claim theorems for the Completeness Oracle and finish signals -/

/-- Claim C7: for brace-delimited content classes,
`looksReasonablyComplete` (1) returns true whenever the merged length is at
least the original length; (2) returns true when the merged length is at
least 90% of the original length and `hasBalancedBraces` (net-zero counts
of the three bracket pairs outside string literals) holds; (3) judges
"\x7b a(); \x7d" balanced; and (4) judges the unbalanced "\x7b a();"
incomplete whenever it is shorter than the original, in particular at 95%
of the original length. -/
theorem looksReasonablyComplete_brace :
    (∀ (m o : Str) (lang : Language), isBraceLang lang = true →
      o.length ≤ m.length → LooksReasonablyComplete m o lang = true) ∧
    (∀ (m o : Str) (lang : Language), isBraceLang lang = true →
      9 * o.length ≤ 10 * m.length → hasBalancedBraces m = true →
      LooksReasonablyComplete m o lang = true) ∧
    hasBalancedBraces (gs "\x7b a(); \x7d") = true ∧
    (∀ (o : Str) (lang : Language), isBraceLang lang = true →
      (gs "\x7b a();").length < o.length →
      LooksReasonablyComplete (gs "\x7b a();") o lang = false) := by
  refine ⟨?_, ?_, by decide, ?_⟩
  · intro m o lang _ hlen
    simp only [LooksReasonablyComplete]
    rw [if_pos hlen]
  · intro m o lang hlang h90 hbal
    simp only [LooksReasonablyComplete]
    by_cases hge : o.length ≤ m.length
    · rw [if_pos hge]
    · rw [if_neg hge, if_pos (by omega)]
      simp only [hasBalancedStructure]
      rw [if_pos hlang]
      exact hbal
  · intro o lang hlang hlt
    have hL : (gs "\x7b a();").length = 6 := by decide
    simp only [LooksReasonablyComplete, hL]
    rw [if_neg (by omega)]
    by_cases hc : o.length * 9 / 10 ≤ 6
    · rw [if_pos hc]
      simp only [hasBalancedStructure]
      rw [if_pos hlang]
      decide
    · rw [if_neg hc]

/-- Claim C7, witness: the three hypothesis-bearing parts at concrete
inputs (a longer merge; the balanced example at 100% = 80/72 ≥ 90%; the
unbalanced example against a 7-character original). -/
theorem looksReasonablyComplete_brace_witness :
    LooksReasonablyComplete (gs "ab") (gs "a") LangGo = true ∧
    LooksReasonablyComplete (gs "\x7b a(); \x7d") (gs "abcdefgh") LangGo = true ∧
    LooksReasonablyComplete (gs "\x7b a();") (gs "1234567") LangGo = false :=
  ⟨looksReasonablyComplete_brace.1 (gs "ab") (gs "a") LangGo (by decide) (by decide),
    looksReasonablyComplete_brace.2.1 (gs "\x7b a(); \x7d") (gs "abcdefgh") LangGo
      (by decide) (by decide) (by decide),
    looksReasonablyComplete_brace.2.2.2 (gs "1234567") LangGo (by decide) (by decide)⟩

/-- Claim C8: for each provider, `IsComplete` is true exactly when the
finish signal is one of that provider's natural-stop strings or is absent
(""), and is false on the provider's length-limit string ("length" for
OpenAI, "max_tokens" for Anthropic); an OpenAI response with no choices has
an absent signal and is treated optimistically as complete. The driver's
`wasResponseComplete` classifies both length-limit strings as incomplete. -/
theorem isComplete_finish_signal :
    (∀ r : OpenAIResponse, r.IsComplete = true ↔
      (r.GetFinishReason = gs "stop" ∨ r.GetFinishReason = gs "end_turn" ∨
        r.GetFinishReason = [])) ∧
    (∀ r : OpenAIResponse, r.GetFinishReason = gs "length" → r.IsComplete = false) ∧
    (∀ r : OpenAIResponse, r.choices = [] → r.IsComplete = true) ∧
    (∀ r : AnthropicResponse, r.IsComplete = true ↔
      (r.GetFinishReason = gs "end_turn" ∨ r.GetFinishReason = gs "stop_sequence" ∨
        r.GetFinishReason = [])) ∧
    (∀ r : AnthropicResponse, r.GetFinishReason = gs "max_tokens" → r.IsComplete = false) ∧
    wasResponseComplete (gs "length") = false ∧
    wasResponseComplete (gs "max_tokens") = false := by
  refine ⟨?_, ?_, ?_, ?_, ?_, by decide, by decide⟩
  · intro r
    simp only [OpenAIResponse.IsComplete, Bool.or_eq_true, decide_eq_true_eq]
    exact or_assoc
  · intro r h
    simp [OpenAIResponse.IsComplete, h]
    decide
  · intro r h
    simp [OpenAIResponse.IsComplete, OpenAIResponse.GetFinishReason, h]
  · intro r
    simp only [AnthropicResponse.IsComplete, Bool.or_eq_true, decide_eq_true_eq]
    exact or_assoc
  · intro r h
    simp [AnthropicResponse.IsComplete, h]
    decide

/-- Claim C8, witness: concrete responses for every hypothesis-bearing
part. -/
theorem isComplete_finish_signal_witness :
    OpenAIResponse.IsComplete ⟨[⟨⟨gs "assistant", gs "hi"⟩, gs "length"⟩], ⟨1⟩⟩ = false ∧
    OpenAIResponse.IsComplete ⟨[], ⟨0⟩⟩ = true ∧
    AnthropicResponse.IsComplete ⟨[], ⟨0, 0⟩, gs "max_tokens"⟩ = false ∧
    OpenAIResponse.IsComplete ⟨[⟨⟨gs "assistant", gs "hi"⟩, gs "stop"⟩], ⟨1⟩⟩ = true :=
  ⟨isComplete_finish_signal.2.1 _ rfl,
    isComplete_finish_signal.2.2.1 _ rfl,
    isComplete_finish_signal.2.2.2.2.1 _ rfl,
    (isComplete_finish_signal.1 _).2 (Or.inl rfl)⟩

/-! ### Driver lemmas and claim theorems -/

/-- The loop never performs more than `attempt + fuel` rounds. -/
theorem processFrom_rounds_le {E : Type} (backend : Nat → Except E APIResp)
    (cfgModel : Str) (req : AIRequest) :
    ∀ fuel attempt acc tokens lastReason trace,
      (processFrom backend cfgModel req attempt fuel acc tokens lastReason trace).2.1 ≤
        attempt + fuel := by
  intro fuel
  induction fuel with
  | zero =>
    intro attempt acc tokens lastReason trace
    exact Nat.le_add_right attempt 0
  | succ f ih =>
    intro attempt acc tokens lastReason trace
    simp only [processFrom]
    cases hb : backend attempt with
    | error e =>
      show attempt + 1 <= attempt + (f + 1)
      omega
    | ok resp =>
      dsimp only
      by_cases hc : resp.isComplete = true ∨ req.mode = ModeGenerate ∨
          (0 < attempt ∧
            LooksReasonablyComplete (stepAcc req attempt acc resp) req.content req.language = true)
      · rw [if_pos hc]
        show attempt + 1 <= attempt + (f + 1)
        omega
      · rw [if_neg hc]
        have := ih (attempt + 1) (stepAcc req attempt acc resp) (tokens + resp.tokensUsed)
          resp.finishReason (trace ++ [stepAcc req attempt acc resp])
        omega

/-- If every backend round reports length-limit (not complete, truncating
finish reason) and no accumulated buffer along the run looks reasonably
complete, a transform-mode run exhausts its full fuel and reports
truncation. -/
theorem processFrom_exhausts {E : Type} (backend : Nat → Except E APIResp)
    (cfgModel : Str) (req : AIRequest)
    (hmode : req.mode = ModeTransform)
    (hok : ∀ n, ∃ r, backend n = Except.ok r ∧ r.isComplete = false ∧
      wasResponseComplete r.finishReason = false) :
    ∀ fuel attempt acc tokens lastReason trace, 0 < fuel →
      (∀ s ∈ (processFrom backend cfgModel req attempt fuel acc tokens lastReason trace).2.2,
        LooksReasonablyComplete s req.content req.language = false) →
      (processFrom backend cfgModel req attempt fuel acc tokens lastReason trace).2.1 =
        attempt + fuel ∧
      ∃ resp,
        (processFrom backend cfgModel req attempt fuel acc tokens lastReason trace).1 =
          Except.ok resp ∧ resp.truncated = true := by
  intro fuel
  induction fuel with
  | zero =>
    intro attempt acc tokens lastReason trace hpos
    omega
  | succ f ih =>
    intro attempt acc tokens lastReason trace _ hlooks
    obtain ⟨r, hr, hrc, hrw⟩ := hok attempt
    simp only [processFrom, hr] at hlooks ⊢
    by_cases hL : r.isComplete = true ∨ req.mode = ModeGenerate ∨
        (0 < attempt ∧
          LooksReasonablyComplete (stepAcc req attempt acc r) req.content req.language = true)
    · rw [if_pos hL] at hlooks
      rcases hL with h | h | h
      · rw [hrc] at h
        exact absurd h (by simp)
      · rw [hmode] at h
        exact absurd h (by decide)
      · have hfalse := hlooks (stepAcc req attempt acc r) (by simp)
        rw [hfalse] at h
        exact absurd h.2 (by simp)
    · rw [if_neg hL] at hlooks ⊢
      cases f with
      | zero =>
        refine ⟨rfl, mkFinal cfgModel (stepAcc req attempt acc r)
          (tokens + r.tokensUsed) r.finishReason, rfl, ?_⟩
        simp [mkFinal, hrw]
      | succ f2 =>
        obtain ⟨h1, h2⟩ := ih (attempt + 1) (stepAcc req attempt acc r)
          (tokens + r.tokensUsed) r.finishReason (trace ++ [stepAcc req attempt acc r])
          (Nat.succ_pos f2) hlooks
        refine ⟨?_, h2⟩
        rw [h1]
        omega

/-- Claim C1 (corrected/amended): (i) for EVERY backend behaviour and every
request the driver performs at most MAX_CONTINUATIONS = 5 rounds (it never
loops indefinitely); (ii) in transform mode, if every backend round
reports the length-limit finish signal AND no accumulated buffer of the
run passes `LooksReasonablyComplete` against the request content, the
driver performs exactly 5 rounds and returns an outcome with
truncated = true. (Without the extra acceptance hypothesis the
"exactly 5" part is false — see the counterexample.) -/
theorem processContent_round_budget {E : Type} (backend : Nat → Except E APIResp)
    (cfgModel : Str) (req : AIRequest)
    (hmode : req.mode = ModeTransform)
    (hok : ∀ n, ∃ r, backend n = Except.ok r ∧ r.isComplete = false ∧
      wasResponseComplete r.finishReason = false)
    (hlooks : ∀ s ∈ processTrace backend cfgModel req,
      LooksReasonablyComplete s req.content req.language = false) :
    processRounds backend cfgModel req = 5 ∧
    (∃ resp, ProcessContent backend cfgModel req = Except.ok resp ∧
      resp.truncated = true) ∧
    (∀ {E2 : Type} (b2 : Nat → Except E2 APIResp) (m2 : Str) (r2 : AIRequest),
      processRounds b2 m2 r2 ≤ MAX_CONTINUATIONS) := by
  obtain ⟨h1, h2⟩ := processFrom_exhausts backend cfgModel req hmode hok
    MAX_CONTINUATIONS 0 [] 0 [] [] (by decide) hlooks
  refine ⟨h1, h2, ?_⟩
  intro E2 b2 m2 r2
  exact processFrom_rounds_le b2 m2 r2 MAX_CONTINUATIONS 0 [] 0 [] []

/-- Claim C1, counterexample to the claim as stated: `lenBackend` reports
the length-limit finish signal on every round, `reqEmpty` is a transform
request, yet the driver stops after 2 rounds (the accumulated buffer is at
least as long as the empty original, so `LooksReasonablyComplete` accepts
early) — not after exactly 5. -/
theorem processContent_round_budget_cx :
    lenBackend 0 = Except.ok lenResp ∧ lenBackend 1 = Except.ok lenResp ∧
    lenResp.isComplete = false ∧ wasResponseComplete lenResp.finishReason = false ∧
    reqEmpty.mode = ModeTransform ∧
    processRounds lenBackend (gs "m") reqEmpty = 2 ∧
    processRounds lenBackend (gs "m") reqEmpty ≠ 5 :=
  ⟨rfl, rfl, rfl, by decide, rfl, by decide, by decide⟩

/-- Claim C1, witness for the amended statement: with a 10-character
original and 1-character fragments nothing ever looks complete, so the run
takes exactly 5 rounds and is marked truncated. -/
theorem processContent_round_budget_witness :
    processRounds lenBackend (gs "m") reqTen = 5 ∧
    (∃ resp, ProcessContent lenBackend (gs "m") reqTen = Except.ok resp ∧
      resp.truncated = true) ∧
    (∀ {E2 : Type} (b2 : Nat → Except E2 APIResp) (m2 : Str) (r2 : AIRequest),
      processRounds b2 m2 r2 ≤ MAX_CONTINUATIONS) :=
  processContent_round_budget lenBackend (gs "m") reqTen rfl
    (fun _ => ⟨lenResp, rfl, rfl, by decide⟩) (by decide)

/-- If the loop reaches round `n` (all earlier rounds succeed incomplete
and nothing looks reasonably complete) and the backend errors at round `n`,
the error is returned as-is and the failing round's fragment is not merged
into the trace. -/
theorem processFrom_err {E : Type} (backend : Nat → Except E APIResp)
    (cfgModel : Str) (req : AIRequest) (hmode : req.mode = ModeTransform) (e : E) :
    ∀ fuel n attempt acc tokens lastReason trace, n < fuel →
      backend (attempt + n) = Except.error e →
      (∀ m, m < n → ∃ r, backend (attempt + m) = Except.ok r ∧ r.isComplete = false) →
      (∀ s ∈ (processFrom backend cfgModel req attempt fuel acc tokens lastReason trace).2.2,
        LooksReasonablyComplete s req.content req.language = false) →
      (processFrom backend cfgModel req attempt fuel acc tokens lastReason trace).1 =
        Except.error e ∧
      (processFrom backend cfgModel req attempt fuel acc tokens lastReason trace).2.1 =
        attempt + n + 1 ∧
      (processFrom backend cfgModel req attempt fuel acc tokens lastReason trace).2.2.length =
        trace.length + n := by
  intro fuel
  induction fuel with
  | zero =>
    intro n attempt acc tokens lastReason trace hn
    omega
  | succ f ih =>
    intro n attempt acc tokens lastReason trace hn herr hok hlooks
    cases n with
    | zero =>
      rw [Nat.add_zero] at herr
      simp [processFrom, herr]
    | succ n2 =>
      obtain ⟨r, hr, hrc⟩ := hok 0 (Nat.succ_pos n2)
      rw [Nat.add_zero] at hr
      simp only [processFrom, hr] at hlooks ⊢
      by_cases hL : r.isComplete = true ∨ req.mode = ModeGenerate ∨
          (0 < attempt ∧
            LooksReasonablyComplete (stepAcc req attempt acc r) req.content req.language = true)
      · rw [if_pos hL] at hlooks
        rcases hL with h | h | h
        · rw [hrc] at h
          exact absurd h (by simp)
        · rw [hmode] at h
          exact absurd h (by decide)
        · have hfalse := hlooks (stepAcc req attempt acc r) (by simp)
          rw [hfalse] at h
          exact absurd h.2 (by simp)
      · rw [if_neg hL] at hlooks ⊢
        have hadd1 : attempt + 1 + n2 = attempt + (n2 + 1) := by omega
        have herr2 : backend (attempt + 1 + n2) = Except.error e := by
          rw [hadd1]; exact herr
        have hok2 : ∀ m, m < n2 →
            ∃ r2, backend (attempt + 1 + m) = Except.ok r2 ∧ r2.isComplete = false := by
          intro m hm
          have hadd2 : attempt + 1 + m = attempt + (m + 1) := by omega
          obtain ⟨r2, hr2, hrc2⟩ := hok (m + 1) (by omega)
          refine ⟨r2, ?_, hrc2⟩
          rw [hadd2]
          exact hr2
        obtain ⟨h1, h2, h3⟩ := ih n2 (attempt + 1) (stepAcc req attempt acc r)
          (tokens + r.tokensUsed) r.finishReason (trace ++ [stepAcc req attempt acc r])
          (by omega) herr2 hok2 hlooks
        refine ⟨h1, by rw [h2]; omega, ?_⟩
        rw [h3, List.length_append, List.length_singleton]
        omega

/-- Claim C9: if the backend call of round `n` (any round the loop
reaches, also rounds after the first) returns an error, `ProcessContent`
returns that error: no AIResponse is produced, the failing round's
fragment is not merged (the trace still has `n` entries), and the
accumulated text of earlier rounds is not returned as a success. -/
theorem processContent_error_aborts {E : Type} (backend : Nat → Except E APIResp)
    (cfgModel : Str) (req : AIRequest) (e : E) (n : Nat)
    (hn : n < MAX_CONTINUATIONS)
    (hmode : req.mode = ModeTransform)
    (herr : backend n = Except.error e)
    (hok : ∀ m, m < n → ∃ r, backend m = Except.ok r ∧ r.isComplete = false)
    (hlooks : ∀ s ∈ processTrace backend cfgModel req,
      LooksReasonablyComplete s req.content req.language = false) :
    ProcessContent backend cfgModel req = Except.error e ∧
    processRounds backend cfgModel req = n + 1 ∧
    (processTrace backend cfgModel req).length = n := by
  obtain ⟨h1, h2, h3⟩ := processFrom_err backend cfgModel req hmode e
    MAX_CONTINUATIONS n 0 [] 0 [] [] hn (by rw [Nat.zero_add]; exact herr)
    (fun m hm => by rw [Nat.zero_add]; exact hok m hm) hlooks
  refine ⟨h1, ?_, ?_⟩
  · show (processFrom backend cfgModel req 0 MAX_CONTINUATIONS [] 0 [] []).2.1 = n + 1
    rw [h2]
    omega
  · show (processFrom backend cfgModel req 0 MAX_CONTINUATIONS [] 0 [] []).2.2.length = n
    rw [h3]
    simp

/-- Claim C9, witness: round 0 succeeds (length-limited, nothing looks
complete against the 10-character original), round 1 errors; the driver
returns the error after 2 rounds with a single-entry trace. -/
theorem processContent_error_aborts_witness :
    ProcessContent errBackend (gs "m") reqTen = Except.error () ∧
    processRounds errBackend (gs "m") reqTen = 1 + 1 ∧
    (processTrace errBackend (gs "m") reqTen).length = 1 :=
  processContent_error_aborts errBackend (gs "m") reqTen () 1 (by decide) rfl
    rfl
    (fun m hm => by
      have hm0 : m = 0 := by omega
      subst hm0
      exact ⟨lenResp, rfl, rfl⟩)
    (by decide)

end Presto
